import Mathlib

/-!
Verification development for the LoRA duplicate-analysis pipeline
(process_lora_models.py).

The Python program is shallowly embedded:
- a safetensors state dict is an insertion-ordered association list of
  tensor name to tensor (Python 3.7+ dicts preserve insertion order);
- a tensor is its shape (list of dimension sizes) together with its flat
  raw value bytes (what tensor.numpy().tobytes() serializes);
- the tensor loader safetensors.torch.load_file is an environment
  function String to Option StateDict, none standing for the exception
  raised on an unreadable file;
- Python dicts are association lists with in-place overwrite, Python
  sets are duplicate-free lists built in insertion order (CPython set
  iteration order is opaque but fixed; no claim depends on which order);
- the unbounded while True refinement loop is embedded with explicit
  fuel, returning none when the fuel is exhausted, so that
  non-termination of the source loop is expressible.
-/

/-- A tensor: its shape and its flat value bytes. -/
structure Tensor where
  shape : List Nat
  data : List Nat
deriving DecidableEq

/-- An ordered tensor-name to tensor mapping, as returned by load_file. -/
abbrev StateDict := List (String × Tensor)

/-- The evolving refinement partition: Python dict current_level, keyed by
None initially and by content-hash strings afterwards. -/
abbrev Level := List (Option String × List String)

/-- The duplicates table: reference path to set of duplicate paths. -/
abbrev Dups := List (String × List String)

/-- The refined_groups table: cluster label to member list. -/
abbrev RG := List (String × List String)

/-- The coarse groups table: shape signature to set of file paths. -/
abbrev Groups := List (String × List String)

/-- Python dict lookup on an association list. -/
def dictGet {κ α : Type} [DecidableEq κ] (d : List (κ × α)) (k : κ) : Option α :=
  match d with
  | [] => none
  | kv :: rest => if kv.1 = k then some kv.2 else dictGet rest k

/-- Python membership test of a key in a dict. -/
def dictHasKey {κ α : Type} [DecidableEq κ] (d : List (κ × α)) (k : κ) : Bool :=
  (dictGet d k).isSome

/-- Python dict assignment d[k] = v: overwrite in place, else append. -/
def dictSet {κ α : Type} [DecidableEq κ] (d : List (κ × α)) (k : κ) (v : α) : List (κ × α) :=
  match d with
  | [] => [(k, v)]
  | kv :: rest => if kv.1 = k then (k, v) :: rest else kv :: dictSet rest k v

/-- Python set.add on the insertion-ordered duplicate-free list model. -/
def pyInsert (xs : List String) (x : String) : List String :=
  if x ∈ xs then xs else xs ++ [x]

/-- Python set.update. -/
def pyUpdate (xs ys : List String) : List String :=
  ys.foldl pyInsert xs

/-- Python set(list) construction. -/
def pySet (xs : List String) : List String :=
  pyUpdate [] xs

/-- Modelled from the spec: hashlib.sha256 hexdigest over raw bytes, the
external cryptographic hash library. It is modelled as a concrete
deterministic function of the byte sequence; every claim proved here uses
only determinism of the digest, never collision resistance. -/
def sha256_hexdigestBytes (bs : List Nat) : List Char :=
  Nat.toDigits 16 (bs.foldl (fun a c => (a * 131 + c) % (2 ^ 64)) 5381)

/-- Modelled from the spec: hashlib.sha256 hexdigest of a UTF-8 string. -/
def sha256_hexdigest (s : String) : String :=
  String.mk (sha256_hexdigestBytes (s.data.map Char.toNat))

/-- The single-quote character, used by Python str repr of strings. -/
def pyQuote : String := String.singleton (Char.ofNat 39)

/-- Python str(...) of one string (repr with single quotes, as it appears
inside str of a list of strings). -/
def pyReprStr (s : String) : String := pyQuote ++ s ++ pyQuote

/-- Python str(...) of a list of strings. -/
def pyReprStrList (xs : List String) : String :=
  "[" ++ String.intercalate ", " (xs.map pyReprStr) ++ "]"

/-- Python str(...) of one shape tuple, e.g. (2, 3), (5,) or (). -/
def pyReprTuple (ns : List Nat) : String :=
  match ns with
  | [] => "()"
  | [n] => "(" ++ toString n ++ ",)"
  | _ => "(" ++ String.intercalate ", " (ns.map toString) ++ ")"

/-- Python str(...) of the list of shape tuples built by compute_shape_signature. -/
def pyReprShapeList (ss : List (List Nat)) : String :=
  "[" ++ String.intercalate ", " (ss.map pyReprTuple) ++ "]"

/-- Boolean comparison of strings by the order used by Python sorted(...). -/
def strLe (a b : String) : Bool := !(decide (b < a))

/-- Insertion step of the sort used to model Python sorted(...). -/
def insertSorted (x : String) : List String → List String
  | [] => [x]
  | y :: ys => if strLe x y then x :: y :: ys else y :: insertSorted x ys

/-- Python sorted(...) on a list of strings. -/
def pySort (xs : List String) : List String :=
  xs.foldr insertSorted []

/-- compute_shape_signature: collects the tensor shapes in iteration
order, takes str(...) of the shape list and hashes it (source lines
30-35). Tensor names and values never enter the digest. -/
def compute_shape_signature (state_dict : StateDict) : String :=
  sha256_hexdigest (pyReprShapeList (state_dict.map (fun kv => kv.2.shape)))

/-- compute_weight_hash: hash of the flat value bytes of one tensor
(tensor.numpy().tobytes(), source lines 37-39). -/
def compute_weight_hash (tensor : Tensor) : String :=
  String.mk (sha256_hexdigestBytes tensor.data)

/-- The probe tensor of one file: the first parameter whose shape is not
torch.Size([]) (source lines 129-135, the inner for with break). -/
def firstNonScalar (sd : StateDict) : Option Tensor :=
  match sd with
  | [] => none
  | kv :: rest => if kv.2.shape = [] then firstNonScalar rest else some kv.2

/-- layer_hash_map[file_hash].append(f) with get-or-create (source lines
132-134). Values are Python lists, so append without dedup. -/
def listMapAppend (m : List (String × List String)) (k : String) (f : String) :
    List (String × List String) :=
  match m with
  | [] => [(k, [f])]
  | kv :: rest =>
    if kv.1 = k then (kv.1, kv.2 ++ [f]) :: rest else kv :: listMapAppend rest k f

/-- The body of the try block of one subgroup (source lines 126-136):
load each member in order, hash its first non-scalar tensor into
layer_hash_map; a load failure raises, keeping the partial map and
leaving layer_processed unset (Bool result false). A file with no
non-scalar tensor contributes nothing to the map. -/
def probeAux (fs : String → Option StateDict) :
    List String → List (String × List String) → List (String × List String) × Bool
  | [], acc => (acc, true)
  | f :: rest, acc =>
    match fs f with
    | none => (acc, false)
    | some sd =>
      match firstNonScalar sd with
      | none => probeAux fs rest acc
      | some t => probeAux fs rest (listMapAppend acc (compute_weight_hash t) f)

/-- new_level[k] = set() if absent, then new_level[k].update(files)
(source lines 119-121 and 140-148, both branches being identical). -/
def levelUpdate (nl : Level) (k : Option String) (files : List String) : Level :=
  match dictGet nl k with
  | none => dictSet nl k (pyUpdate [] files)
  | some cur => dictSet nl k (pyUpdate cur files)

/-- Merging the (possibly partial) layer_hash_map of one subgroup into
new_level (source lines 140-148). -/
def mergeBuckets (nl : Level) (lhm : List (String × List String)) : Level :=
  lhm.foldl (fun nl kv => levelUpdate nl (some kv.1) kv.2) nl

/-- Handling of one subgroup within a pass (source lines 117-148):
subgroups of at most one member pass through under their key without
touching layer_processed; larger subgroups are probed and their (possibly
partial) hash buckets merged, ORing the success flag into layer_processed. -/
def refineStep (fs : String → Option StateDict) (acc : Level × Bool)
    (kv : Option String × List String) : Level × Bool :=
  if kv.2.length ≤ 1 then (levelUpdate acc.1 kv.1 kv.2, acc.2)
  else
    let pr := probeAux fs kv.2 []
    (mergeBuckets acc.1 pr.1, acc.2 || pr.2)

/-- One full pass of the while True loop over current_level (source lines
114-150): builds new_level from an empty dict and ORs the per-subgroup
success flags into layer_processed. -/
def refinePass (fs : String → Option StateDict) (cl : Level) : Level × Bool :=
  cl.foldl (refineStep fs) ([], false)

/-- The while True refinement loop (source lines 113-153) with explicit
fuel: current_level = new_level, then break when layer_processed is
false. none means the fuel ran out before the source loop stopped. -/
def refineLoopAux (fs : String → Option StateDict) : Nat → Level → Option Level
  | 0, _ => none
  | n + 1, cl =>
    let pr := refinePass fs cl
    if pr.2 then refineLoopAux fs n pr.1 else some pr.1

/-- Zipped item equality of the verification loop (source lines 168-171):
every zipped pair has equal names and torch.equal values. -/
def pairsMatch (xs ys : StateDict) : Bool :=
  (xs.zip ys).all (fun p => decide (p.1.1 = p.2.1) && decide (p.1.2 = p.2.2))

/-- duplicates[reference] = set() if absent, then add other (source lines
174-177). -/
def dupAdd (d : Dups) (r o : String) : Dups :=
  match dictGet d r with
  | none => dictSet d r (pyInsert [] o)
  | some vs => dictSet d r (pyInsert vs o)

/-- The inner comparison loop of verification (source lines 163-177): for
each other file, load it (a failure raises out of the whole subgroup
loop, returning the duplicates accumulated so far), skip the pair when
key counts differ or any zipped pair mismatches, record otherwise. -/
def verifyOthers (fs : String → Option StateDict) (d : Dups) (ref : String)
    (refDict : StateDict) : List String → Dups
  | [] => d
  | o :: rest =>
    match fs o with
    | none => d
    | some od =>
      if refDict.length ≠ od.length then verifyOthers fs d ref refDict rest
      else if pairsMatch refDict od then
        verifyOthers fs (dupAdd d ref o) ref refDict rest
      else verifyOthers fs d ref refDict rest

/-- Verification of one final subgroup (source lines 156-179): skip
subgroups of at most one member, take the first member as reference,
load it (failure abandons the subgroup) and compare every other member. -/
def verifySubgroup (fs : String → Option StateDict) (d : Dups) (fg : List String) : Dups :=
  if fg.length ≤ 1 then d
  else
    match fg with
    | [] => d
    | ref :: others =>
      match fs ref with
      | none => d
      | some refDict => verifyOthers fs d ref refDict others

/-- The verification loop over all final subgroups (source lines 155-179). -/
def verifyAll (fs : String → Option StateDict) (d : Dups) (fgs : List (List String)) : Dups :=
  fgs.foldl (verifySubgroup fs) d

/-- Label assignment for one final subgroup (source lines 183-191): a
singleton subgroup gets the key "unique_" ++ path, every other subgroup
gets the hex digest of the Python str of its sorted member list; the
stored value is the member list. -/
def labelStep (rg : RG) (fg : List String) : RG :=
  match fg with
  | [p] => dictSet rg ("unique_" ++ p) [p]
  | _ => dictSet rg (sha256_hexdigest (pyReprStrList (pySort fg))) fg

/-- Label assignment over all final subgroups (source lines 181-191). -/
def labelClusters (rg : RG) (fgs : List (List String)) : RG :=
  fgs.foldl labelStep rg

/-- refine_group (source lines 106-191): early return on groups of at
most one file, the fueled layer-wise refinement loop, exact
verification of the final subgroups, then label assignment. none means
the source loop did not terminate within the given fuel. -/
def refine_group (fs : String → Option StateDict) (fuel : Nat)
    (group_files : List String) (rg : RG) (d : Dups) : Option (RG × Dups) :=
  if group_files.length ≤ 1 then some (rg, d)
  else
    match refineLoopAux fs fuel [(none, pySet group_files)] with
    | none => none
    | some final =>
      let fgs := final.map (fun kv => kv.2)
      some (labelClusters rg fgs, verifyAll fs d fgs)

/-- Example state dict with one non-scalar tensor. -/
def dA : StateDict := [("w", ⟨[2], [1, 2]⟩)]

/-- Loader for the C2 failing input: file A has a non-scalar tensor,
file B holds only a scalar (zero-dimensional) tensor. -/
def fs2 (p : String) : Option StateDict :=
  if p = "A" then some dA
  else if p = "B" then some [("s", ⟨[], [7]⟩)]
  else none

/-- The value of one FileRecord entry (source lines 91-94): load time and
size are environmental measurements, supplied to the scan as a function. -/
structure FileRec where
  load_time_sec : Nat
  size_kb : Nat
deriving DecidableEq

/-- The mutable state threaded through the scan phase: the processed
table, the coarse groups table, and the sequence of paths on which the
producer invoked the tensor loader. -/
structure ScanState where
  processed : List (String × FileRec)
  groups : Groups
  attempts : List String
deriving DecidableEq

/-- groups[shape_sig] = set() if absent, then add file_path (source lines
86-89). -/
def groupAdd (g : Groups) (sig f : String) : Groups :=
  match dictGet g sig with
  | none => dictSet g sig (pyInsert [] f)
  | some files => dictSet g sig (pyInsert files f)

/-- One file of the scan phase, the producer check and load (source lines
46-60) composed with the consumer work on the queued item (source lines
83-96): skip when the path is already in processed_data, otherwise invoke
the loader; on failure only the attempt is recorded; on success the shape
signature groups the path and the FileRecord is inserted. The concurrent
producer-queue-consumer pipeline is linearized per file; the tables are
lock-protected in the source so per-file effects are atomic. -/
def scanStep (fs : String → Option StateDict) (meta : String → FileRec)
    (st : ScanState) (f : String) : ScanState :=
  if dictHasKey st.processed f then st
  else
    match fs f with
    | none => { st with attempts := st.attempts ++ [f] }
    | some sd =>
      { processed := dictSet st.processed f (meta f)
        groups := groupAdd st.groups (compute_shape_signature sd) f
        attempts := st.attempts ++ [f] }

/-- The scan phase over the enumerated file list. -/
def scanRun (fs : String → Option StateDict) (meta : String → FileRec) :
    List String → ScanState → ScanState
  | [], st => st
  | f :: rest, st => scanRun fs meta rest (scanStep fs meta st f)

/-- All member paths stored in the coarse groups table. -/
def memsOfGroups (g : Groups) : List String :=
  g.foldr (fun kv acc => kv.2 ++ acc) []

/-- producer_thread in isolation (source lines 41-64): for each
enumerated file, skip it when the membership check procCheck (the lock
protected lookup in processed_data, which only ever grows during a run)
succeeds; otherwise invoke the loader, recording the attempt, and queue
the item on success. Returns (load attempts, queued items) in file order. -/
def producer_thread (procCheck : String → Bool) (fs : String → Option StateDict) :
    List String → List String × List (String × StateDict)
  | [] => ([], [])
  | f :: rest =>
    if procCheck f then producer_thread procCheck fs rest
    else
      match fs f with
      | some sd =>
        let pr := producer_thread procCheck fs rest
        (f :: pr.1, (f, sd) :: pr.2)
      | none =>
        let pr := producer_thread procCheck fs rest
        (f :: pr.1, pr.2)

mutual

/-- A Python value as handed to json.dump: strings, numbers, lists,
dicts, and sets (which json.dump cannot serialize). -/
inductive PyValue where
  | pstr : String → PyValue
  | pnum : Nat → PyValue
  | plist : PyList → PyValue
  | pdict : PyDict → PyValue
  | pset : PyList → PyValue

/-- A Python list of values. -/
inductive PyList where
  | nil : PyList
  | cons : PyValue → PyList → PyList

/-- A Python dict with string keys, in insertion order. -/
inductive PyDict where
  | nil : PyDict
  | cons : String → PyValue → PyDict → PyDict

end

/-- JSON rendering of a string value. -/
def jsonStr (s : String) : String := "\"" ++ s ++ "\""

mutual

/-- json.dump of one value: none models the TypeError raised on a value
that is not JSON serializable, which is exactly what a Python set is. -/
def json_dump : PyValue → Option String
  | .pstr s => some (jsonStr s)
  | .pnum n => some (toString n)
  | .pset _ => none
  | .plist xs =>
    match jsonListParts xs with
    | none => none
    | some ss => some ("[" ++ String.intercalate ", " ss ++ "]")
  | .pdict kvs =>
    match jsonDictParts kvs with
    | none => none
    | some ss => some ("\x7b" ++ String.intercalate ", " ss ++ "\x7d")

/-- json.dump over the elements of a list. -/
def jsonListParts : PyList → Option (List String)
  | .nil => some []
  | .cons x xs =>
    match json_dump x, jsonListParts xs with
    | some s, some ss => some (s :: ss)
    | _, _ => none

/-- json.dump over the entries of a dict. -/
def jsonDictParts : PyDict → Option (List String)
  | .nil => some []
  | .cons k v rest =>
    match json_dump v, jsonDictParts rest with
    | some s, some ss => some ((jsonStr k ++ ": " ++ s) :: ss)
    | _, _ => none

end

/-- save_json (source lines 26-28): json.dump of the given data; none is
the unhandled exception when the data cannot be serialized. -/
def save_json (data : PyValue) : Option String := json_dump data

/-- Conversion of a list of path strings into the PyValue list shape. -/
def strListToPyList (xs : List String) : PyList :=
  xs.foldr (fun s acc => PyList.cons (PyValue.pstr s) acc) PyList.nil

/-- The in-memory duplicates table as handed to save_json (source line
272): each value is a Python set of path strings. -/
def dupsToPy (d : Dups) : PyValue :=
  PyValue.pdict (d.foldr (fun kv acc =>
    PyDict.cons kv.1 (PyValue.pset (strListToPyList kv.2)) acc) PyDict.nil)

/-- temp_groups as handed to save_json (source lines 101-102 and
264-265): each set value converted to a Python list first. -/
def groupsTempToPy (g : Groups) : PyValue :=
  PyValue.pdict (g.foldr (fun kv acc =>
    PyDict.cons kv.1 (PyValue.plist (strListToPyList kv.2)) acc) PyDict.nil)

/-- The refined_groups table as handed to save_json (source line 271):
values are Python lists already. -/
def rgToPy (rg : RG) : PyValue :=
  PyValue.pdict (rg.foldr (fun kv acc =>
    PyDict.cons kv.1 (PyValue.plist (strListToPyList kv.2)) acc) PyDict.nil)

/-- The processed table as handed to save_json (source line 263). -/
def processedToPy (pd : List (String × FileRec)) : PyValue :=
  PyValue.pdict (pd.foldr (fun kv acc =>
    PyDict.cons kv.1
      (PyValue.pdict
        (PyDict.cons "load_time_sec" (PyValue.pnum kv.2.load_time_sec)
          (PyDict.cons "size_kb" (PyValue.pnum kv.2.size_kb) PyDict.nil)))
      acc) PyDict.nil)

/-- Filename constant (source line 12). -/
def PROCESSED_JSON : String := "processed.json"

/-- Filename constant (source line 13). -/
def GROUPS_JSON : String := "groups.json"

/-- Filename constant (source line 14). -/
def REFINED_GROUPS_JSON : String := "refined_groups.json"

/-- Filename constant (source line 15). -/
def DUPLICATES_JSON : String := "duplicates.json"

/-- The persistence performed at run completion by the orchestrator
(source lines 262-272): processed data, temp groups, refined groups and
duplicates in that order; any serialization failure raises and aborts
the remaining saves. Returns the list of (filename, contents) written. -/
def finalPersist (pd : List (String × FileRec)) (g : Groups) (rg : RG) (d : Dups) :
    Option (List (String × String)) :=
  match save_json (processedToPy pd) with
  | none => none
  | some s1 =>
    match save_json (groupsTempToPy g) with
    | none => none
    | some s2 =>
      match save_json (rgToPy rg) with
      | none => none
      | some s3 =>
        match save_json (dupsToPy d) with
        | none => none
        | some s4 =>
          some [(PROCESSED_JSON, s1), (GROUPS_JSON, s2),
                (REFINED_GROUPS_JSON, s3), (DUPLICATES_JSON, s4)]

/-- Example state dict with two non-scalar tensors. -/
def d1 : StateDict := [("w", ⟨[2], [1, 2]⟩), ("v", ⟨[2], [3, 4]⟩)]

/-- The content hash of the first tensor of d1. -/
def h1 : String := compute_weight_hash ⟨[2], [1, 2]⟩

/-- Loader for the C1 failing input: two distinct files that are
byte-identical duplicates, each with two non-scalar tensors. -/
def fs1 (p : String) : Option StateDict :=
  if p = "A" then some d1 else if p = "B" then some d1 else none

/-- An empty state dict, used as a key-count mismatch partner. -/
def dX : StateDict := []

/-- Loader for the C5 scenario: files A and C load to identical dicts,
file X loads to a dict with a different key count, file B fails to load. -/
def fs5 (p : String) : Option StateDict :=
  if p = "A" then some dA
  else if p = "C" then some dA
  else if p = "X" then some dX
  else none

/-- Loader for the C10 witness: A and B are identical duplicates, C
fails to load, which is the configuration under which the source loop
terminates with a multi-member subgroup. -/
def fs10 (p : String) : Option StateDict :=
  if p = "A" then some dA else if p = "B" then some dA else none

/-- Loader for the C9 witness: A loads, B fails. -/
def fs9 (p : String) : Option StateDict :=
  if p = "A" then some dA else none

/-- Constant file metadata for witnesses. -/
def meta9 (_ : String) : FileRec := ⟨0, 0⟩

/-- The empty scan state of a fresh run. -/
def scanInit : ScanState := ⟨[], [], []⟩

/-- No entry of the duplicates table contains its own reference key. -/
def noSelfDupB (d : Dups) : Bool :=
  d.all (fun kv => decide (kv.1 ∉ kv.2))

/-- The pair (r, o) is recorded in the duplicates table. -/
def dupMemB (d : Dups) (r o : String) : Bool :=
  match dictGet d r with
  | none => false
  | some vs => decide (o ∈ vs)

/-- Every subgroup stored in a level has duplicate-free members. -/
def levelValuesNodup (l : Level) : Prop :=
  ∀ kv ∈ l, List.Nodup kv.2

/-- Witness state dicts for the shape-signature claim: same shape
sequences, different names and different values. -/
def sdShapesOnly1 : StateDict := [("alpha", ⟨[2, 3], [1, 2, 3, 4, 5, 6]⟩), ("s", ⟨[], [7]⟩)]

/-- Second witness state dict with the same shape sequence. -/
def sdShapesOnly2 : StateDict := [("beta", ⟨[2, 3], [9, 9, 9, 9, 9, 9]⟩), ("t", ⟨[], [0]⟩)]

theorem dictGet_dictSet {κ α : Type} [DecidableEq κ] (d : List (κ × α)) (k k2 : κ) (v : α) :
    dictGet (dictSet d k v) k2 = if k = k2 then some v else dictGet d k2 := by
  induction d with
  | nil => simp [dictGet, dictSet]
  | cons kv rest ih =>
    simp only [dictSet]
    by_cases h1 : kv.1 = k
    · simp only [if_pos h1, dictGet]
      by_cases h2 : k = k2
      · simp [h2]
      · have h3 : ¬ kv.1 = k2 := fun h => h2 (h1.symm.trans h)
        simp [h2, h3]
    · simp only [if_neg h1, dictGet]
      by_cases h2 : kv.1 = k2
      · have h3 : ¬ k = k2 := fun h => h1 (h2.trans h.symm)
        simp [h2, h3]
      · simp [h2, ih]

theorem dictGet_mem {κ α : Type} [DecidableEq κ] (d : List (κ × α)) (k : κ) (v : α)
    (h : dictGet d k = some v) : (k, v) ∈ d := by
  induction d with
  | nil => simp [dictGet] at h
  | cons kv rest ih =>
    obtain ⟨a, b⟩ := kv
    simp only [dictGet] at h
    by_cases h1 : a = k
    · rw [if_pos h1] at h
      subst h1
      injection h with h
      subst h
      exact List.mem_cons_self _ _
    · rw [if_neg h1] at h
      exact List.mem_cons_of_mem _ (ih h)

theorem dictSet_mem {κ α : Type} [DecidableEq κ] (d : List (κ × α)) (k : κ) (v : α)
    (kv2 : κ × α) (h : kv2 ∈ dictSet d k v) : kv2 ∈ d ∨ kv2 = (k, v) := by
  induction d with
  | nil => simpa [dictSet] using h
  | cons kv rest ih =>
    by_cases h1 : kv.1 = k
    · simp [dictSet, h1] at h
      rcases h with h | h
      · right; simp [h]
      · left; exact List.mem_cons_of_mem _ h
    · simp [dictSet, h1] at h
      rcases h with h | h
      · left; simp [h]
      · rcases ih h with h2 | h2
        · left; exact List.mem_cons_of_mem _ h2
        · right; exact h2

theorem pyInsert_mem (xs : List String) (x y : String) :
    x ∈ pyInsert xs y ↔ x ∈ xs ∨ x = y := by
  unfold pyInsert
  by_cases h : y ∈ xs
  · simp only [if_pos h]
    constructor
    · exact Or.inl
    · rintro (hx | rfl) <;> [exact hx; exact h]
  · simp [if_neg h]

theorem pyInsert_nodup (xs : List String) (y : String) (h : xs.Nodup) :
    (pyInsert xs y).Nodup := by
  unfold pyInsert
  by_cases hm : y ∈ xs
  · simpa [hm] using h
  · simp only [if_neg hm]
    rw [List.nodup_append]
    refine ⟨h, List.nodup_singleton y, ?_⟩
    intro a ha hay
    rw [List.mem_singleton] at hay
    exact hm (hay ▸ ha)

theorem pyInsert_not_mem (xs : List String) (x y : String) (h1 : x ∉ xs) (h2 : x ≠ y) :
    x ∉ pyInsert xs y := by
  rw [pyInsert_mem]
  rintro (h | h)
  · exact h1 h
  · exact h2 h

theorem pyUpdate_nodup (ys xs : List String) (h : xs.Nodup) : (pyUpdate xs ys).Nodup := by
  induction ys generalizing xs with
  | nil => simpa [pyUpdate] using h
  | cons y ys ih =>
    have : pyUpdate xs (y :: ys) = pyUpdate (pyInsert xs y) ys := rfl
    rw [this]
    exact ih _ (pyInsert_nodup xs y h)

theorem pySet_nodup (xs : List String) : (pySet xs).Nodup :=
  pyUpdate_nodup xs [] List.nodup_nil

theorem producer_attempt_check (procCheck : String → Bool) (fs : String → Option StateDict)
    (l : List String) (x : String) (hx : x ∈ (producer_thread procCheck fs l).1) :
    procCheck x = false := by
  induction l with
  | nil => simp [producer_thread] at hx
  | cons f rest ih =>
    by_cases hc : procCheck f
    · exact ih (by simpa [producer_thread, hc] using hx)
    · cases hf : fs f with
      | none =>
        simp [producer_thread, hc, hf] at hx
        rcases hx with rfl | hx
        · simpa using hc
        · exact ih hx
      | some sd =>
        simp [producer_thread, hc, hf] at hx
        rcases hx with rfl | hx
        · simpa using hc
        · exact ih hx

/-- C1. The claim says the layer-wise refinement loop of refine_group
terminates within a number of passes bounded by the maximum tensor count
of the group members. On a group of two byte-identical files (the very
situation the tool exists to detect) each pass re-hashes the first
non-scalar tensor, layer_processed is set on every pass, and the loop
never exits: for every fuel bound the embedded loop is still running, so
in particular for any bound derived from the tensor counts. -/
theorem c1_refine_group_nonterminating :
    ∀ fuel : Nat, refine_group fs1 fuel ["A", "B"] [] [] = none := by
  have hfix : refinePass fs1 [(some h1, ["A", "B"])] = ([(some h1, ["A", "B"])], true) := by
    rfl
  have hloop : ∀ n, refineLoopAux fs1 n [(some h1, ["A", "B"])] = none := by
    intro n
    induction n with
    | zero => rfl
    | succ n ih => simpa [refineLoopAux, hfix] using ih
  have hstart : ∀ m, refineLoopAux fs1 m [(none, pySet ["A", "B"])] = none := by
    intro m
    cases m with
    | zero => rfl
    | succ m =>
      have hp : refinePass fs1 [(none, pySet ["A", "B"])] = ([(some h1, ["A", "B"])], true) := by
        rfl
      simpa [refineLoopAux, hp] using hloop m
  intro fuel
  simp [refine_group, hstart]

/-- C2. The claim says every member of a coarse group, including one with
no non-scalar tensor, appears in exactly one refined cluster. On the
group of files A and B, where B holds only a scalar tensor, B is never
added to layer_hash_map, is dropped from new_level during the first pass,
and the resulting refined clusters cover only A: the partition invariant
fails on the code. -/
theorem c2_refine_group_drops_member :
    refine_group fs2 3 ["A", "B"] [] [] = some ([("unique_A", ["A"])], []) ∧
      "B" ∉ memsOfGroups [("unique_A", ["A"])] :=
  ⟨rfl, by decide⟩

/-- C3. The claim says the run-completion persist writes all four tables
with duplicate sets serialized as arrays. The code converts the coarse
groups table to lists before saving but hands the duplicates table to
json.dump with raw Python set values, which raises TypeError, so as soon
as one duplicate pair has been recorded the final persist fails. -/
theorem c3_duplicates_save_raises :
    finalPersist [] [] [] [("A", ["B"])] = none ∧
      save_json (dupsToPy [("A", ["B"])]) = none ∧
      (save_json (groupsTempToPy [("A", ["B"])])).isSome = true :=
  ⟨rfl, rfl, rfl⟩

/-- C6. Every path on which the producer invokes the tensor loader fails
the processed-table membership check, so any path present in the
FileRecord table at the start of the run (the membership test procCheck
only ever gains paths during a run) is never re-loaded. -/
theorem c6_producer_skips_processed (procCheck : String → Bool)
    (fs : String → Option StateDict) (file_list processed0 : List String) (p : String)
    (hmono : ∀ q ∈ processed0, procCheck q = true) (hp : p ∈ processed0) :
    p ∉ (producer_thread procCheck fs file_list).1 := by
  intro hin
  have hfalse := producer_attempt_check procCheck fs file_list p hin
  rw [hmono p hp] at hfalse
  exact absurd hfalse (by decide)

/-- Witness for C6 at a concrete run: file A is already processed, the
directory lists A and B, and A is not among the load attempts. -/
theorem c6_witness :
    "A" ∉ (producer_thread (fun s => decide (s = "A")) fs9 ["A", "B"]).1 :=
  c6_producer_skips_processed (fun s => decide (s = "A")) fs9 ["A", "B"] ["A"] "A"
    (by decide) (by decide)

/-- C8. compute_shape_signature reads nothing but the sequence of tensor
shapes in iteration order: two state dicts with equal shape sequences
receive equal hex digests, whatever their tensor names and values. -/
theorem c8_shape_signature_shape_only (sd1 sd2 : StateDict)
    (h : sd1.map (fun kv => kv.2.shape) = sd2.map (fun kv => kv.2.shape)) :
    compute_shape_signature sd1 = compute_shape_signature sd2 := by
  unfold compute_shape_signature
  rw [h]

/-- Witness for C8: two state dicts with different names and different
values but equal shape sequences get the same signature. -/
theorem c8_witness : compute_shape_signature sdShapesOnly1 = compute_shape_signature sdShapesOnly2 :=
  c8_shape_signature_shape_only sdShapesOnly1 sdShapesOnly2 (by rfl)

/-- Counterexample for C5. In the subgroup A, B, C the reference A and
the member C load to identical state dicts, but the load error on B
aborts the whole subgroup loop: the duplicates table stays empty, so the
error did not affect only the pair (A, B) — C was never compared even
though it matches the reference exactly. -/
theorem c5_counterexample :
    verifySubgroup fs5 [] ["A", "B", "C"] = [] ∧
      fs5 "A" = some dA ∧ fs5 "C" = some dA ∧
      dA.length = dA.length ∧ pairsMatch dA dA = true :=
  ⟨rfl, rfl, rfl, rfl, by decide⟩

/-- C5 as amended. A mismatch (differing key counts or any differing
zipped pair) affects only that pair and comparison proceeds with the
remaining members unchanged; a load error while comparing one member
abandons the remaining members of that subgroup, returning the
duplicates recorded so far; and a failure inside one subgroup never
stops verification of the following subgroups or the overall run. -/
theorem c5_error_scope :
    (∀ (fs : String → Option StateDict) (d : Dups) (ref : String) (rd : StateDict)
        (o : String) (od : StateDict) (rest : List String),
      fs o = some od → ¬(rd.length = od.length ∧ pairsMatch rd od = true) →
        verifyOthers fs d ref rd (o :: rest) = verifyOthers fs d ref rd rest) ∧
    (∀ (fs : String → Option StateDict) (d : Dups) (ref : String) (rd : StateDict)
        (o : String) (rest : List String),
      fs o = none → verifyOthers fs d ref rd (o :: rest) = d) ∧
    (∀ (fs : String → Option StateDict) (d : Dups) (fg : List String)
        (fgs : List (List String)),
      verifyAll fs d (fg :: fgs) = verifyAll fs (verifySubgroup fs d fg) fgs) := by
  refine ⟨?_, ?_, ?_⟩
  · intro fs d ref rd o od rest ho hmis
    simp only [verifyOthers, ho]
    by_cases hlen : rd.length ≠ od.length
    · rw [if_pos hlen]
    · rw [if_neg hlen]
      have hpm : pairsMatch rd od = false := by
        cases hpm2 : pairsMatch rd od
        · rfl
        · exact absurd ⟨not_not.1 hlen, hpm2⟩ hmis
      rw [hpm]
      simp
  · intro fs d ref rd o rest ho
    simp [verifyOthers, ho]
  · intro fs d fg fgs
    rfl

/-- Witness for C5 as amended: the mismatching pair (A, X) is skipped
without ending the loop, the failing load of B returns the table
unchanged, and verification of a later subgroup proceeds after a
subgroup containing a failure. -/
theorem c5_witness :
    verifyOthers fs5 [] "A" dA ["X"] = verifyOthers fs5 [] "A" dA [] ∧
      verifyOthers fs5 [] "A" dA ["B"] = [] ∧
      verifyAll fs5 [] [["A", "B"], ["C"]] =
        verifyAll fs5 (verifySubgroup fs5 [] ["A", "B"]) [["C"]] :=
  ⟨c5_error_scope.1 fs5 [] "A" dA "X" dX [] (by rfl) (by decide),
   c5_error_scope.2.1 fs5 [] "A" dA "B" [] (by rfl),
   c5_error_scope.2.2 fs5 [] ["A", "B"] [["C"]]⟩

/-- Counterexample for C7. A concrete refinement run stores a singleton
cluster under the key built with the literal prefix underscore
("unique_"), which differs from the colon form "unique:" stated by the
claim. -/
theorem c7_counterexample :
    refine_group fs2 3 ["A", "B"] [] [] = some ([("unique_A", ["A"])], []) ∧
      "unique_A" ≠ "unique:" ++ "A" :=
  ⟨rfl, by decide⟩

theorem labelStep_mem (rg : RG) (fg : List String) (k : String) (v : List String)
    (h : (k, v) ∈ labelStep rg fg) :
    (k, v) ∈ rg ∨ (∃ p, v = [p] ∧ k = "unique_" ++ p) ∨
      (v.length ≠ 1 ∧ k = sha256_hexdigest (pyReprStrList (pySort v))) := by
  match fg with
  | [p] =>
    simp only [labelStep] at h
    rcases dictSet_mem _ _ _ _ h with h2 | h2
    · exact Or.inl h2
    · rw [Prod.ext_iff] at h2
      exact Or.inr (Or.inl ⟨p, h2.2, h2.1⟩)
  | [] =>
    simp only [labelStep] at h
    rcases dictSet_mem _ _ _ _ h with h2 | h2
    · exact Or.inl h2
    · rw [Prod.ext_iff] at h2
      have hk : k = sha256_hexdigest (pyReprStrList (pySort [])) := h2.1
      have hv : v = [] := h2.2
      subst hv
      subst hk
      exact Or.inr (Or.inr ⟨by simp, rfl⟩)
  | p :: q :: tl =>
    simp only [labelStep] at h
    rcases dictSet_mem _ _ _ _ h with h2 | h2
    · exact Or.inl h2
    · rw [Prod.ext_iff] at h2
      have hk : k = sha256_hexdigest (pyReprStrList (pySort (p :: q :: tl))) := h2.1
      have hv : v = p :: q :: tl := h2.2
      subst hv
      subst hk
      exact Or.inr (Or.inr ⟨by simp, rfl⟩)

/-- C7 as amended. Every entry the label assignment adds for a final
subgroup is either a singleton cluster stored under "unique_" ++ path
(underscore, not the colon the claim stated) or a multi-member (or
empty) cluster stored under the hex digest of the Python str of its
sorted member list. -/
theorem c7_cluster_key_shape (fgs : List (List String)) (rg : RG) (k : String)
    (v : List String) (h : (k, v) ∈ labelClusters rg fgs) :
    (k, v) ∈ rg ∨ (∃ p, v = [p] ∧ k = "unique_" ++ p) ∨
      (v.length ≠ 1 ∧ k = sha256_hexdigest (pyReprStrList (pySort v))) := by
  induction fgs generalizing rg with
  | nil => exact Or.inl h
  | cons fg rest ih =>
    have h0 : labelClusters rg (fg :: rest) = labelClusters (labelStep rg fg) rest := rfl
    rw [h0] at h
    rcases ih _ h with h2 | h2 | h2
    · exact labelStep_mem rg fg k v h2
    · exact Or.inr (Or.inl h2)
    · exact Or.inr (Or.inr h2)

/-- Witness for C7 as amended, at the entry stored for the concrete
singleton subgroup containing only file A. -/
theorem c7_witness :
    ("unique_A", ["A"]) ∈ ([] : RG) ∨
      (∃ p, ["A"] = [p] ∧ "unique_A" = "unique_" ++ p) ∨
      ((["A"] : List String).length ≠ 1 ∧
        "unique_A" = sha256_hexdigest (pyReprStrList (pySort ["A"]))) :=
  c7_cluster_key_shape [["A"]] [] "unique_A" ["A"] (by decide)

theorem dupMemB_dupAdd (d : Dups) (r o r2 o2 : String) :
    dupMemB (dupAdd d r o) r2 o2 = true ↔
      dupMemB d r2 o2 = true ∨ (r2 = r ∧ o2 = o) := by
  simp only [dupMemB, dupAdd]
  cases hv : dictGet d r with
  | none =>
    rw [dictGet_dictSet]
    by_cases h2 : r = r2
    · subst h2
      rw [if_pos rfl, hv]
      simp [pyInsert]
    · rw [if_neg h2]
      constructor
      · exact Or.inl
      · rintro (h | ⟨rfl, rfl⟩)
        · exact h
        · exact absurd rfl h2
  | some vs =>
    rw [dictGet_dictSet]
    by_cases h2 : r = r2
    · subst h2
      rw [if_pos rfl, hv]
      simp [pyInsert_mem]
    · rw [if_neg h2]
      constructor
      · exact Or.inl
      · rintro (h | ⟨rfl, rfl⟩)
        · exact h
        · exact absurd rfl h2

theorem pairsMatch_maps (xs : StateDict) : ∀ ys : StateDict, xs.length = ys.length →
    pairsMatch xs ys = true →
    xs.map Prod.fst = ys.map Prod.fst ∧ xs.map Prod.snd = ys.map Prod.snd := by
  induction xs with
  | nil =>
    intro ys hlen _
    cases ys with
    | nil => simp
    | cons y ys => simp at hlen
  | cons x xs ih =>
    intro ys hlen hpm
    cases ys with
    | nil => simp at hlen
    | cons y ys =>
      simp only [pairsMatch, List.zip_cons_cons, List.all_cons, Bool.and_eq_true,
        decide_eq_true_eq] at hpm
      obtain ⟨⟨hk, hv⟩, hrest⟩ := hpm
      have hih := ih ys (by simpa using hlen) hrest
      simp [hk, hv, hih.1, hih.2]

theorem verifyOthers_mem (fs : String → Option StateDict) (ref : String) (rd : StateDict)
    (r o : String) :
    ∀ (others : List String) (d : Dups), dupMemB d r o = false →
      dupMemB (verifyOthers fs d ref rd others) r o = true →
      r = ref ∧ ∃ od, fs o = some od ∧ rd.length = od.length ∧ pairsMatch rd od = true := by
  intro others
  induction others with
  | nil =>
    intro d h0 h1
    rw [verifyOthers] at h1
    rw [h0] at h1
    exact absurd h1 (by simp)
  | cons o1 rest ih =>
    intro d h0 h1
    cases hfo : fs o1 with
    | none =>
      rw [verifyOthers, hfo] at h1
      rw [h0] at h1
      exact absurd h1 (by simp)
    | some od1 =>
      rw [verifyOthers, hfo] at h1
      dsimp only at h1
      by_cases hlen : rd.length ≠ od1.length
      · rw [if_pos hlen] at h1
        exact ih d h0 h1
      · rw [if_neg hlen] at h1
        cases hpm : pairsMatch rd od1 with
        | false =>
          rw [hpm] at h1
          simp only [Bool.false_eq_true, if_false] at h1
          exact ih d h0 h1
        | true =>
          rw [hpm] at h1
          simp only [if_true] at h1
          cases hmid : dupMemB (dupAdd d ref o1) r o with
          | true =>
            rcases (dupMemB_dupAdd d ref o1 r o).1 hmid with h2 | ⟨hr, ho⟩
            · rw [h0] at h2
              exact absurd h2 (by simp)
            · subst hr
              subst ho
              exact ⟨rfl, od1, hfo, not_not.1 hlen, hpm⟩
          | false => exact ih _ hmid h1

theorem verifySubgroup_mem (fs : String → Option StateDict) (r o : String)
    (fg : List String) (d : Dups) (h0 : dupMemB d r o = false)
    (h1 : dupMemB (verifySubgroup fs d fg) r o = true) :
    ∃ rd od, fs r = some rd ∧ fs o = some od ∧ rd.length = od.length ∧
      pairsMatch rd od = true := by
  rw [verifySubgroup.eq_def] at h1
  by_cases hlen : fg.length ≤ 1
  · rw [if_pos hlen] at h1
    rw [h0] at h1
    exact absurd h1 (by simp)
  · rw [if_neg hlen] at h1
    cases fg with
    | nil => simp at hlen
    | cons ref others =>
      dsimp only at h1
      cases hfr : fs ref with
      | none =>
        rw [hfr] at h1
        dsimp only at h1
        rw [h0] at h1
        exact absurd h1 (by simp)
      | some rd =>
        rw [hfr] at h1
        dsimp only at h1
        obtain ⟨hr, od, ho, hl, hp⟩ := verifyOthers_mem fs ref rd r o others d h0 h1
        subst hr
        exact ⟨rd, od, hfr, ho, hl, hp⟩

theorem verifyAll_mem (fs : String → Option StateDict) (r o : String) :
    ∀ (fgs : List (List String)) (d : Dups), dupMemB d r o = false →
      dupMemB (verifyAll fs d fgs) r o = true →
      ∃ rd od, fs r = some rd ∧ fs o = some od ∧ rd.length = od.length ∧
        pairsMatch rd od = true := by
  intro fgs
  induction fgs with
  | nil =>
    intro d h0 h1
    rw [verifyAll] at h1
    simp only [List.foldl_nil] at h1
    rw [h0] at h1
    exact absurd h1 (by simp)
  | cons fg rest ih =>
    intro d h0 h1
    have hstep : verifyAll fs d (fg :: rest) = verifyAll fs (verifySubgroup fs d fg) rest := rfl
    rw [hstep] at h1
    cases hmid : dupMemB (verifySubgroup fs d fg) r o with
    | true => exact verifySubgroup_mem fs r o fg d h0 hmid
    | false => exact ih _ hmid h1

/-- C4. If the pair (r, o) is newly recorded in the duplicates table by
the verification loop, then at that moment loading r and o succeeded and
the two state dicts had equal key counts, pairwise-equal tensor names in
iteration order, and exactly equal tensor values (equal shape and bytes)
for every tensor. -/
theorem c4_duplicates_exact (fs : String → Option StateDict) (d : Dups)
    (fgs : List (List String)) (r o : String)
    (h0 : dupMemB d r o = false)
    (h1 : dupMemB (verifyAll fs d fgs) r o = true) :
    ∃ rd od, fs r = some rd ∧ fs o = some od ∧ rd.length = od.length ∧
      rd.map Prod.fst = od.map Prod.fst ∧ rd.map Prod.snd = od.map Prod.snd := by
  obtain ⟨rd, od, hr, ho, hl, hp⟩ := verifyAll_mem fs r o fgs d h0 h1
  obtain ⟨hf, hs⟩ := pairsMatch_maps rd od hl hp
  exact ⟨rd, od, hr, ho, hl, hf, hs⟩

/-- Witness for C4: in the concrete run that records B under reference A,
the two loaded state dicts agree in counts, names and values. -/
theorem c4_witness :
    ∃ rd od, fs10 "A" = some rd ∧ fs10 "B" = some od ∧ rd.length = od.length ∧
      rd.map Prod.fst = od.map Prod.fst ∧ rd.map Prod.snd = od.map Prod.snd :=
  c4_duplicates_exact fs10 [] [["A", "B"]] "A" "B" (by rfl) (by rfl)

theorem noSelfDupB_iff (d : Dups) : noSelfDupB d = true ↔ ∀ kv ∈ d, kv.1 ∉ kv.2 := by
  simp [noSelfDupB, List.all_eq_true]

theorem dupAdd_noSelfDup (d : Dups) (r o : String) (h : noSelfDupB d = true) (hne : r ≠ o) :
    noSelfDupB (dupAdd d r o) = true := by
  rw [noSelfDupB_iff] at h ⊢
  intro kv hkv
  unfold dupAdd at hkv
  cases hv : dictGet d r with
  | none =>
    rw [hv] at hkv
    rcases dictSet_mem _ _ _ _ hkv with h2 | h2
    · exact h kv h2
    · subst h2
      simp [pyInsert]
      exact hne
  | some vs =>
    rw [hv] at hkv
    rcases dictSet_mem _ _ _ _ hkv with h2 | h2
    · exact h kv h2
    · subst h2
      have hrv : r ∉ vs := h (r, vs) (dictGet_mem d r vs hv)
      exact pyInsert_not_mem vs r o hrv hne

theorem verifyOthers_noSelfDup (fs : String → Option StateDict) (ref : String)
    (rd : StateDict) :
    ∀ (others : List String) (d : Dups), noSelfDupB d = true → ref ∉ others →
      noSelfDupB (verifyOthers fs d ref rd others) = true := by
  intro others
  induction others with
  | nil =>
    intro d h _
    rw [verifyOthers]
    exact h
  | cons o1 rest ih =>
    intro d h hnm
    have hne : ref ≠ o1 := fun he => hnm (by rw [he]; exact List.mem_cons_self _ _)
    have hnm2 : ref ∉ rest := fun hm => hnm (List.mem_cons_of_mem _ hm)
    rw [verifyOthers]
    cases hfo : fs o1 with
    | none => exact h
    | some od1 =>
      dsimp only
      by_cases hlen : rd.length ≠ od1.length
      · rw [if_pos hlen]
        exact ih d h hnm2
      · rw [if_neg hlen]
        cases hpm : pairsMatch rd od1 with
        | false =>
          simp only [Bool.false_eq_true, if_false]
          exact ih d h hnm2
        | true =>
          simp only [if_true]
          exact ih _ (dupAdd_noSelfDup d ref o1 h hne) hnm2

theorem verifySubgroup_noSelfDup (fs : String → Option StateDict) (d : Dups)
    (fg : List String) (h : noSelfDupB d = true) (hnd : fg.Nodup) :
    noSelfDupB (verifySubgroup fs d fg) = true := by
  rw [verifySubgroup.eq_def]
  by_cases hlen : fg.length ≤ 1
  · rw [if_pos hlen]
    exact h
  · rw [if_neg hlen]
    cases fg with
    | nil => exact h
    | cons ref others =>
      dsimp only
      cases hfr : fs ref with
      | none => exact h
      | some rd =>
        dsimp only
        exact verifyOthers_noSelfDup fs ref rd others d h (List.nodup_cons.1 hnd).1

theorem verifyAll_noSelfDup (fs : String → Option StateDict) :
    ∀ (fgs : List (List String)) (d : Dups), noSelfDupB d = true →
      (∀ fg ∈ fgs, fg.Nodup) → noSelfDupB (verifyAll fs d fgs) = true := by
  intro fgs
  induction fgs with
  | nil =>
    intro d h _
    exact h
  | cons fg rest ih =>
    intro d h hnd
    have hstep : verifyAll fs d (fg :: rest) = verifyAll fs (verifySubgroup fs d fg) rest := rfl
    rw [hstep]
    exact ih _ (verifySubgroup_noSelfDup fs d fg h (hnd fg (List.mem_cons_self _ _)))
      (fun g hg => hnd g (List.mem_cons_of_mem _ hg))

theorem levelUpdate_nodup (nl : Level) (k : Option String) (files : List String)
    (h : levelValuesNodup nl) : levelValuesNodup (levelUpdate nl k files) := by
  intro kv hkv
  unfold levelUpdate at hkv
  cases hv : dictGet nl k with
  | none =>
    rw [hv] at hkv
    rcases dictSet_mem _ _ _ _ hkv with h2 | h2
    · exact h kv h2
    · subst h2
      exact pyUpdate_nodup files [] List.nodup_nil
  | some cur =>
    rw [hv] at hkv
    rcases dictSet_mem _ _ _ _ hkv with h2 | h2
    · exact h kv h2
    · subst h2
      exact pyUpdate_nodup files cur (h (k, cur) (dictGet_mem nl k cur hv))

theorem mergeBuckets_nodup (lhm : List (String × List String)) :
    ∀ nl : Level, levelValuesNodup nl → levelValuesNodup (mergeBuckets nl lhm) := by
  induction lhm with
  | nil =>
    intro nl h
    exact h
  | cons kv rest ih =>
    intro nl h
    have hstep : mergeBuckets nl (kv :: rest) =
        mergeBuckets (levelUpdate nl (some kv.1) kv.2) rest := rfl
    rw [hstep]
    exact ih _ (levelUpdate_nodup nl (some kv.1) kv.2 h)

theorem refineStep_nodup (fs : String → Option StateDict) (acc : Level × Bool)
    (kv : Option String × List String) (h : levelValuesNodup acc.1) :
    levelValuesNodup (refineStep fs acc kv).1 := by
  unfold refineStep
  by_cases hl : kv.2.length ≤ 1
  · rw [if_pos hl]
    exact levelUpdate_nodup acc.1 kv.1 kv.2 h
  · rw [if_neg hl]
    exact mergeBuckets_nodup (probeAux fs kv.2 []).1 acc.1 h

theorem foldl_refineStep_nodup (fs : String → Option StateDict) :
    ∀ (cl : Level) (acc : Level × Bool), levelValuesNodup acc.1 →
      levelValuesNodup (cl.foldl (refineStep fs) acc).1 := by
  intro cl
  induction cl with
  | nil =>
    intro acc h
    exact h
  | cons kv rest ih =>
    intro acc h
    rw [List.foldl_cons]
    exact ih _ (refineStep_nodup fs acc kv h)

theorem refinePass_nodup (fs : String → Option StateDict) (cl : Level) :
    levelValuesNodup (refinePass fs cl).1 :=
  foldl_refineStep_nodup fs cl ([], false) (fun kv hkv => absurd hkv (List.not_mem_nil kv))

theorem refineLoopAux_nodup (fs : String → Option StateDict) :
    ∀ (n : Nat) (cl final : Level),
      refineLoopAux fs n cl = some final → levelValuesNodup final := by
  intro n
  induction n with
  | zero =>
    intro cl final h
    simp [refineLoopAux] at h
  | succ n ih =>
    intro cl final h
    rw [refineLoopAux] at h
    by_cases hp : (refinePass fs cl).2 = true
    · rw [if_pos hp] at h
      exact ih _ final h
    · rw [if_neg hp] at h
      injection h with h
      rw [← h]
      exact refinePass_nodup fs cl

/-- C10. The verification phase of refine_group never records a reference
file inside its own duplicate set: the reference is the first element of
a duplicate-free subgroup and only the remaining elements are compared,
so if the incoming duplicates table has no self-entry, neither does the
one refine_group returns. -/
theorem c10_no_self_duplicate (fs : String → Option StateDict) (fuel : Nat)
    (group_files : List String) (rg rg2 : RG) (d d2 : Dups)
    (h : noSelfDupB d = true)
    (hres : refine_group fs fuel group_files rg d = some (rg2, d2)) :
    noSelfDupB d2 = true := by
  rw [refine_group.eq_def] at hres
  by_cases hl : group_files.length ≤ 1
  · rw [if_pos hl] at hres
    injection hres with hres
    have hd : d = d2 := congrArg Prod.snd hres
    rw [← hd]
    exact h
  · rw [if_neg hl] at hres
    cases hloop : refineLoopAux fs fuel [(none, pySet group_files)] with
    | none =>
      rw [hloop] at hres
      exact absurd hres (by simp)
    | some final =>
      rw [hloop] at hres
      dsimp only at hres
      injection hres with hres
      have hd : d2 = verifyAll fs d (final.map (fun kv => kv.2)) :=
        (congrArg Prod.snd hres).symm
      rw [hd]
      apply verifyAll_noSelfDup fs (final.map (fun kv => kv.2)) d h
      intro fg hfg
      rw [List.mem_map] at hfg
      obtain ⟨kv, hkv, hfg2⟩ := hfg
      rw [← hfg2]
      exact refineLoopAux_nodup fs fuel _ final hloop kv hkv

/-- Witness for C10: the concrete run on files A, B, C (A and B being
identical, C failing to load) records B under A, and the resulting table
has no self-entry. -/
theorem c10_witness : noSelfDupB [("A", ["B"])] = true :=
  c10_no_self_duplicate fs10 2 ["A", "B", "C"] []
    [(sha256_hexdigest (pyReprStrList (pySort ["A", "B"])), ["A", "B"])] [] [("A", ["B"])]
    (by rfl) (by rfl)

theorem hasKey_dictSet {κ α : Type} [DecidableEq κ] (d : List (κ × α)) (k k2 : κ) (v : α) :
    dictHasKey (dictSet d k v) k2 = true ↔ k = k2 ∨ dictHasKey d k2 = true := by
  unfold dictHasKey
  rw [dictGet_dictSet]
  by_cases h : k = k2
  · simp [h]
  · simp [h]

theorem scanStep_hasKey_false (fs : String → Option StateDict) (mf : String → FileRec)
    (st : ScanState) (f p : String) (hp : fs p = none)
    (h : dictHasKey st.processed p = false) :
    dictHasKey (scanStep fs mf st f).processed p = false := by
  unfold scanStep
  by_cases hk : dictHasKey st.processed f = true
  · rw [if_pos hk]
    exact h
  · rw [if_neg hk]
    cases hf : fs f with
    | none => exact h
    | some sd =>
      dsimp only
      have hfp : f ≠ p := fun he => by rw [he, hp] at hf; exact Option.noConfusion hf
      cases hb : dictHasKey (dictSet st.processed f (mf f)) p with
      | false => rfl
      | true =>
        rcases (hasKey_dictSet st.processed f p (mf f)).1 hb with h2 | h2
        · exact absurd h2 hfp
        · rw [h] at h2
          exact absurd h2 (by decide)

theorem scanRun_hasKey_false (fs : String → Option StateDict) (mf : String → FileRec) :
    ∀ (l : List String) (st : ScanState) (p : String), fs p = none →
      dictHasKey st.processed p = false →
      dictHasKey (scanRun fs mf l st).processed p = false := by
  intro l
  induction l with
  | nil =>
    intro st p _ h
    exact h
  | cons f rest ih =>
    intro st p hp h
    rw [scanRun]
    exact ih _ p hp (scanStep_hasKey_false fs mf st f p hp h)

theorem mem_memsOfGroups (g : Groups) (x : String) :
    x ∈ memsOfGroups g ↔ ∃ kv, kv ∈ g ∧ x ∈ kv.2 := by
  induction g with
  | nil => simp [memsOfGroups]
  | cons kv rest ih =>
    have hstep : memsOfGroups (kv :: rest) = kv.2 ++ memsOfGroups rest := rfl
    rw [hstep, List.mem_append, ih]
    constructor
    · rintro (h | ⟨kv2, h2, h3⟩)
      · exact ⟨kv, List.mem_cons_self _ _, h⟩
      · exact ⟨kv2, List.mem_cons_of_mem _ h2, h3⟩
    · rintro ⟨kv2, h2, h3⟩
      rcases List.mem_cons.1 h2 with h4 | h4
      · exact Or.inl (h4 ▸ h3)
      · exact Or.inr ⟨kv2, h4, h3⟩

theorem groupAdd_mem (g : Groups) (sig f x : String)
    (h : x ∈ memsOfGroups (groupAdd g sig f)) : x ∈ memsOfGroups g ∨ x = f := by
  unfold groupAdd at h
  cases hv : dictGet g sig with
  | none =>
    rw [hv] at h
    rw [mem_memsOfGroups] at h
    obtain ⟨kv, hkv, hx⟩ := h
    rcases dictSet_mem _ _ _ _ hkv with h2 | h2
    · exact Or.inl ((mem_memsOfGroups g x).2 ⟨kv, h2, hx⟩)
    · subst h2
      right
      simpa [pyInsert] using hx
  | some files =>
    rw [hv] at h
    rw [mem_memsOfGroups] at h
    obtain ⟨kv, hkv, hx⟩ := h
    rcases dictSet_mem _ _ _ _ hkv with h2 | h2
    · exact Or.inl ((mem_memsOfGroups g x).2 ⟨kv, h2, hx⟩)
    · subst h2
      rcases (pyInsert_mem files x f).1 hx with h3 | h3
      · exact Or.inl ((mem_memsOfGroups g x).2 ⟨(sig, files), dictGet_mem g sig files hv, h3⟩)
      · exact Or.inr h3

theorem scanStep_groups_free (fs : String → Option StateDict) (mf : String → FileRec)
    (st : ScanState) (f p : String) (hp : fs p = none)
    (h : p ∉ memsOfGroups st.groups) :
    p ∉ memsOfGroups (scanStep fs mf st f).groups := by
  unfold scanStep
  by_cases hk : dictHasKey st.processed f = true
  · rw [if_pos hk]
    exact h
  · rw [if_neg hk]
    cases hf : fs f with
    | none => exact h
    | some sd =>
      dsimp only
      intro hin
      have hfp : f ≠ p := fun he => by rw [he, hp] at hf; exact Option.noConfusion hf
      rcases groupAdd_mem st.groups _ f p hin with h2 | h2
      · exact h h2
      · exact hfp h2.symm

theorem scanRun_groups_free (fs : String → Option StateDict) (mf : String → FileRec) :
    ∀ (l : List String) (st : ScanState) (p : String), fs p = none →
      p ∉ memsOfGroups st.groups →
      p ∉ memsOfGroups (scanRun fs mf l st).groups := by
  intro l
  induction l with
  | nil =>
    intro st p _ h
    exact h
  | cons f rest ih =>
    intro st p hp h
    rw [scanRun]
    exact ih _ p hp (scanStep_groups_free fs mf st f p hp h)

theorem scanStep_hasKey_mono (fs : String → Option StateDict) (mf : String → FileRec)
    (st : ScanState) (f x : String) (h : dictHasKey st.processed x = true) :
    dictHasKey (scanStep fs mf st f).processed x = true := by
  unfold scanStep
  by_cases hk : dictHasKey st.processed f = true
  · rw [if_pos hk]
    exact h
  · rw [if_neg hk]
    cases hf : fs f with
    | none => exact h
    | some sd =>
      dsimp only
      exact (hasKey_dictSet st.processed f x (mf f)).2 (Or.inr h)

theorem scanRun_hasKey_mono (fs : String → Option StateDict) (mf : String → FileRec) :
    ∀ (l : List String) (st : ScanState) (x : String),
      dictHasKey st.processed x = true →
      dictHasKey (scanRun fs mf l st).processed x = true := by
  intro l
  induction l with
  | nil =>
    intro st x h
    exact h
  | cons f rest ih =>
    intro st x h
    rw [scanRun]
    exact ih _ x (scanStep_hasKey_mono fs mf st f x h)

theorem scanStep_processes_self (fs : String → Option StateDict) (mf : String → FileRec)
    (st : ScanState) (q : String) (sd : StateDict) (hq : fs q = some sd) :
    dictHasKey (scanStep fs mf st q).processed q = true := by
  unfold scanStep
  by_cases hk : dictHasKey st.processed q = true
  · rw [if_pos hk]
    exact hk
  · rw [if_neg hk]
    rw [hq]
    dsimp only
    exact (hasKey_dictSet st.processed q q (mf q)).2 (Or.inl rfl)

theorem scanRun_processes (fs : String → Option StateDict) (mf : String → FileRec) :
    ∀ (l : List String) (st : ScanState) (q : String) (sd : StateDict),
      q ∈ l → fs q = some sd →
      dictHasKey (scanRun fs mf l st).processed q = true := by
  intro l
  induction l with
  | nil =>
    intro st q sd hq _
    exact absurd hq (List.not_mem_nil q)
  | cons f rest ih =>
    intro st q sd hq hfs
    rw [scanRun]
    by_cases he : f = q
    · subst he
      exact scanRun_hasKey_mono fs mf rest _ f (scanStep_processes_self fs mf st f sd hfs)
    · rcases List.mem_cons.1 hq with h2 | h2
      · exact absurd h2.symm he
      · exact ih _ q sd h2 hfs

theorem scanStep_attempts_mono (fs : String → Option StateDict) (mf : String → FileRec)
    (st : ScanState) (f x : String) (h : x ∈ st.attempts) :
    x ∈ (scanStep fs mf st f).attempts := by
  unfold scanStep
  by_cases hk : dictHasKey st.processed f = true
  · rw [if_pos hk]
    exact h
  · rw [if_neg hk]
    cases hf : fs f with
    | none => exact List.mem_append_left _ h
    | some sd =>
      dsimp only
      exact List.mem_append_left _ h

theorem scanRun_attempts_mono (fs : String → Option StateDict) (mf : String → FileRec) :
    ∀ (l : List String) (st : ScanState) (x : String),
      x ∈ st.attempts → x ∈ (scanRun fs mf l st).attempts := by
  intro l
  induction l with
  | nil =>
    intro st x h
    exact h
  | cons f rest ih =>
    intro st x h
    rw [scanRun]
    exact ih _ x (scanStep_attempts_mono fs mf st f x h)

theorem scanStep_attempts_self (fs : String → Option StateDict) (mf : String → FileRec)
    (st : ScanState) (f : String) (hk : dictHasKey st.processed f = false) :
    f ∈ (scanStep fs mf st f).attempts := by
  unfold scanStep
  have hk2 : ¬ (dictHasKey st.processed f = true) := by simp [hk]
  rw [if_neg hk2]
  cases hf : fs f with
  | none => exact List.mem_append_right _ (List.mem_singleton.2 rfl)
  | some sd =>
    dsimp only
    exact List.mem_append_right _ (List.mem_singleton.2 rfl)

theorem scanStep_hasKey_preserve_ne (fs : String → Option StateDict) (mf : String → FileRec)
    (st : ScanState) (f p : String) (hne : f ≠ p)
    (h : dictHasKey st.processed p = false) :
    dictHasKey (scanStep fs mf st f).processed p = false := by
  unfold scanStep
  by_cases hk : dictHasKey st.processed f = true
  · rw [if_pos hk]
    exact h
  · rw [if_neg hk]
    cases hf : fs f with
    | none => exact h
    | some sd =>
      dsimp only
      cases hb : dictHasKey (dictSet st.processed f (mf f)) p with
      | false => rfl
      | true =>
        rcases (hasKey_dictSet st.processed f p (mf f)).1 hb with h2 | h2
        · exact absurd h2 hne
        · rw [h] at h2
          exact absurd h2 (by decide)

theorem scanRun_retry (fs : String → Option StateDict) (mf : String → FileRec) :
    ∀ (l : List String) (st : ScanState) (p : String), p ∈ l →
      dictHasKey st.processed p = false →
      p ∈ (scanRun fs mf l st).attempts := by
  intro l
  induction l with
  | nil =>
    intro st p hp _
    exact absurd hp (List.not_mem_nil p)
  | cons f rest ih =>
    intro st p hp h
    rw [scanRun]
    by_cases he : f = p
    · subst he
      exact scanRun_attempts_mono fs mf rest _ f (scanStep_attempts_self fs mf st f h)
    · rcases List.mem_cons.1 hp with h2 | h2
      · exact absurd h2.symm he
      · exact ih _ p h2 (scanStep_hasKey_preserve_ne fs mf st f p he h)

/-- C9. A file whose load fails during the scan ends the run outside the
FileRecord table and outside every coarse group, every other loadable
file of the listing is still processed, and a subsequent run (starting
from the persisted tables, with a fresh attempt log) invokes the loader
on the failed path again. -/
theorem c9_load_failure_isolated (fs fsNext : String → Option StateDict)
    (mf mfNext : String → FileRec) (listing : List String) (st0 : ScanState)
    (p q : String) (sd : StateDict)
    (hfail : fs p = none)
    (hp0 : dictHasKey st0.processed p = false)
    (hg0 : p ∉ memsOfGroups st0.groups)
    (hpl : p ∈ listing)
    (hql : q ∈ listing) (hq : fs q = some sd) :
    dictHasKey (scanRun fs mf listing st0).processed p = false ∧
      p ∉ memsOfGroups (scanRun fs mf listing st0).groups ∧
      dictHasKey (scanRun fs mf listing st0).processed q = true ∧
      p ∈ (scanRun fsNext mfNext listing
            ⟨(scanRun fs mf listing st0).processed,
             (scanRun fs mf listing st0).groups, []⟩).attempts := by
  refine ⟨scanRun_hasKey_false fs mf listing st0 p hfail hp0,
          scanRun_groups_free fs mf listing st0 p hfail hg0,
          scanRun_processes fs mf listing st0 q sd hql hq, ?_⟩
  exact scanRun_retry fsNext mfNext listing _ p hpl
    (scanRun_hasKey_false fs mf listing st0 p hfail hp0)

/-- Witness for C9 on the concrete listing A, B with B failing to load:
B is recorded nowhere, A is processed, and the second run re-attempts B. -/
theorem c9_witness :
    dictHasKey (scanRun fs9 meta9 ["A", "B"] scanInit).processed "B" = false ∧
      "B" ∉ memsOfGroups (scanRun fs9 meta9 ["A", "B"] scanInit).groups ∧
      dictHasKey (scanRun fs9 meta9 ["A", "B"] scanInit).processed "A" = true ∧
      "B" ∈ (scanRun fs9 meta9 ["A", "B"]
              ⟨(scanRun fs9 meta9 ["A", "B"] scanInit).processed,
               (scanRun fs9 meta9 ["A", "B"] scanInit).groups, []⟩).attempts :=
  c9_load_failure_isolated fs9 fs9 meta9 meta9 ["A", "B"] scanInit "B" "A" dA
    (by rfl) (by rfl) (by decide) (by decide) (by decide) (by rfl)
